import Mathlib

/-!
# Verification of the rmap host/port scanner's expansion and aggregation logic

This file shallowly embeds the pure parts of the `rmap` repository
(`src/args.rs` and `src/main.rs`) in Lean 4 and proves properties of them.

Machine integers (`u16`, `u32`) are modelled as `Nat` with explicit
`% 2 ^ 32` (resp. bounds checks) exactly where the Rust code can overflow;
wrapping (release-mode) semantics is used at the single overflow site,
the `+= 1` in `HostIpRange::next` (a debug build would panic there instead).
Rust `panic!`/`unwrap` is modelled as `Option.none`.
Strings are handled as `List Char` after `String.toList`.
-/

/-- The error enum of `args.rs` (`main.rs` has the same enum minus
`InvalidPortNumber`; one Lean type serves both files). -/
inductive NetworkParseError where
  | MissingAddress
  | BadIpAddress
  | BadNetmask
  | InvalidPortNumber
deriving DecidableEq, Repr

/-- `PortState` from `main.rs`. -/
inductive PortState where
  | Open
  | Closed
  | Timeout
deriving DecidableEq, Repr

/-- Rust `str::split_once(c)`: splits at the first occurrence of `c`,
returning the parts before and after it, or `none` when `c` is absent. -/
def splitOnceList (c : Char) : List Char → Option (List Char × List Char)
  | [] => none
  | x :: xs =>
    if x = c then some ([], xs)
    else (splitOnceList c xs).map (fun p => (x :: p.1, p.2))

/-- Rust `str::split(c)`: splits at every occurrence of `c`; the empty
string yields one empty part, as in Rust. -/
def splitAllList (c : Char) : List Char → List (List Char)
  | [] => [[]]
  | x :: xs =>
    if x = c then [] :: splitAllList c xs
    else
      match splitAllList c xs with
      | [] => [[x]]
      | h :: t => (x :: h) :: t

/-- Numeric value of a digit list, most significant first. -/
def digitsVal (ds : List Char) : Nat :=
  ds.foldl (fun a c => 10 * a + (c.toNat - 48)) 0

/-- Rust `str::parse::<uN>()` for an unsigned type whose maximum is
`bound`: an optional leading `+`, then one or more ASCII digits, and the
value must not exceed `bound`; anything else is a parse error (`none`). -/
def parseUInt (bound : Nat) (cs : List Char) : Option Nat :=
  let ds := match cs with
    | '+' :: t => t
    | t => t
  if ds = [] then none
  else if ds.all Char.isDigit then
    if digitsVal ds ≤ bound then some (digitsVal ds) else none
  else none

/-- Rust `str::parse::<u16>()`. -/
def parseU16 (cs : List Char) : Option Nat := parseUInt 65535 cs

/-- Rust `str::parse::<u32>()`. -/
def parseU32 (cs : List Char) : Option Nat := parseUInt 4294967295 cs

/-- One dotted-quad group as accepted by Rust's `Ipv4Addr::from_str`:
one or more digits, no leading zero (except the single digit `0`),
value at most 255. No sign is accepted. -/
def parseOctet (cs : List Char) : Option Nat :=
  match cs with
  | [] => none
  | c :: rest =>
    if (c :: rest).all Char.isDigit then
      if c = '0' ∧ rest ≠ [] then none
      else if digitsVal (c :: rest) ≤ 255 then some (digitsVal (c :: rest))
      else none
    else none

/-- Rust `Ipv4Addr::from_str`, producing the address as its `u32` value
(big-endian octets, as `u32::from(Ipv4Addr)` does). -/
def ipv4FromChars (cs : List Char) : Option Nat :=
  match splitAllList '.' cs with
  | [a, b, c, d] =>
    match parseOctet a, parseOctet b, parseOctet c, parseOctet d with
    | some a', some b', some c', some d' =>
      some (((a' * 256 + b') * 256 + c') * 256 + d')
    | _, _, _, _ => none
  | _ => none

/-- The address/netmask part selection of `address_and_netmask_from_str`:
split at the first `/`; absence of `/` supplies the literal mask `"32"`. -/
def ipAndMaskParts (cs : List Char) : List Char × List Char :=
  match splitOnceList '/' cs with
  | none => (cs, ['3', '2'])
  | some p => p

/-- The netmask validation of `address_and_netmask_from_str`:
`mask.parse::<u32>()` followed by the `0..=32` range check. -/
def parseMask (cs : List Char) : Option Nat :=
  match parseU32 cs with
  | none => none
  | some m => if m ≤ 32 then some m else none

/-- `address_and_netmask_from_str` from `args.rs` (identical in
`main.rs`), over the character list of the input. -/
def address_and_netmask_from_chars (cs : List Char) :
    Except NetworkParseError (Nat × Nat) :=
  if cs = [] then .error .MissingAddress
  else
    match ipv4FromChars (ipAndMaskParts cs).1 with
    | none => .error .BadIpAddress
    | some addr =>
      match parseMask (ipAndMaskParts cs).2 with
      | none => .error .BadNetmask
      | some mask => .ok (addr, mask)

/-- The iterator state `HostIpRange` of `args.rs`: both fields are `u32`
values held as `Nat`. -/
structure HostIpRange where
  next : Nat
  last : Nat
deriving DecidableEq, Repr

/-- `expand_hosts_with_netmask` from `args.rs`. For `mask = 0`,
release-mode Rust computes `2_u32.pow(32)` as `0` and `0 - 1` as
`u32::MAX`, hence the `% 2 ^ 32` wrapping in `ignore_mask`. The final
addition `(addr & netmask) + ignore_mask` never exceeds `u32::MAX`. -/
def expand_hosts_with_netmask (addr mask : Nat) : HostIpRange :=
  if mask = 32 then { next := addr, last := addr }
  else
    let ignore_mask := (2 ^ (32 - mask) % 2 ^ 32 + (2 ^ 32 - 1)) % 2 ^ 32
    let netmask := 2 ^ 32 - 1 - ignore_mask
    { next := addr &&& netmask, last := (addr &&& netmask) + ignore_mask }

/-- `expand_hosts` from `args.rs`. -/
def expand_hosts (s : String) : Except NetworkParseError HostIpRange :=
  match address_and_netmask_from_chars s.toList with
  | .error e => .error e
  | .ok (addr, mask) => .ok (expand_hosts_with_netmask addr mask)

/-- One call of `<HostIpRange as Iterator>::next`. The `self.next += 1`
is a `u32` increment, hence the wrap `% 2 ^ 32`; the yielded value
`self.next - 1` after the increment equals the old `self.next` under the
same wrapping semantics. -/
def hostNext (s : HostIpRange) : Option Nat × HostIpRange :=
  if s.next ≤ s.last then
    (some s.next, { next := (s.next + 1) % 2 ^ 32, last := s.last })
  else (none, s)

/-- Driving the `HostIpRange` iterator for `fuel` calls: returns the
yielded addresses and `none` if the iterator returned `None` (finished)
within the fuel, or `some s` with the remaining state otherwise. -/
def runIter (fuel : Nat) (s : HostIpRange) : List Nat × Option HostIpRange :=
  match fuel with
  | 0 => ([], some s)
  | n + 1 =>
    match hostNext s with
    | (none, _) => ([], none)
    | (some a, s') =>
      let r := runIter n s'
      (a :: r.1, r.2)

/-- The list `[a, a+1, ..., b]` denoted by a Rust `RangeInclusive` with
`a > b` giving the empty list, matching `RangeInclusive`'s iterator. -/
def rangeToList (a b : Nat) : List Nat :=
  List.range' a (b + 1 - a)

/-- `expand_port_range` from `args.rs` (identical in `main.rs`); the
produced `RangeInclusive<u16>` is modelled as the endpoint pair. -/
def expand_port_range (t : List Char) : Option (Nat × Nat) :=
  match splitOnceList '-' t with
  | none =>
    match parseU16 t, parseU16 t with
    | some a, some b => some (a, b)
    | _, _ => none
  | some ([], []) => some (1, 65535)
  | some (x, y) =>
    match parseU16 x, parseU16 y with
    | some a, some b => some (a, b)
    | _, _ => none

/-- The `flat_map(|p| expand_port_range(p).unwrap())` of
`expand_port_list`, over the already-split token list. `collect` drives
the iterator left to right, so the `unwrap` panic on the first bad token
aborts the whole operation: modelled as `none`. -/
def expandTokens : List (List Char) → Option (List Nat)
  | [] => some []
  | t :: rest =>
    match expand_port_range t with
    | none => none
    | some (a, b) => (expandTokens rest).map (fun l => rangeToList a b ++ l)

/-- `expand_port_list` from `args.rs` (identical in `main.rs`):
split on `,`, expand every token, concatenate. A panic is `none`. -/
def expand_port_list (s : String) : Option (List Nat) :=
  expandTokens (splitAllList ',' s.toList)

/-- `expand_hosts_with_netmask` from `main.rs` — the historical variant
returning a `Vec`. Note it maps over `1..=ignore_mask`, starting at the
network address plus one. -/
def main_expand_hosts_with_netmask (addr mask : Nat) : List Nat :=
  if mask = 32 then [addr]
  else
    let ignore_mask := (2 ^ (32 - mask) % 2 ^ 32 + (2 ^ 32 - 1)) % 2 ^ 32
    let netmask := 2 ^ 32 - 1 - ignore_mask
    (rangeToList 1 ignore_mask).map (fun i => (addr &&& netmask) + i)

/-- `expand_hosts` from `main.rs`. -/
def main_expand_hosts (s : String) : Except NetworkParseError (List Nat) :=
  match address_and_netmask_from_chars s.toList with
  | .error e => .error e
  | .ok (addr, mask) => .ok (main_expand_hosts_with_netmask addr mask)

/-- The pre-flight phase of `main`: host expansion (`expect` panics on
error) then port expansion, both before any probe task is spawned; the
scan's target data exists only if both succeed. -/
def mainSetup (hostSpec portSpec : String) : Option (List Nat × List Nat) :=
  match main_expand_hosts hostSpec, expand_port_list portSpec with
  | .ok hs, some ps => some (hs, ps)
  | _, _ => none

/-- The result-aggregation loop at the end of `main`: a fold over the
received `(address, state)` pairs that prints one line per `Open`
(modelled by collecting those addresses in order) and counts `Closed`
and `Timeout` in two process-wide counters. -/
def mainAggregate : List (String × PortState) → List String × Nat × Nat
  | [] => ([], 0, 0)
  | (sa, st) :: rest =>
    let r := mainAggregate rest
    match st with
    | .Open => (sa :: r.1, r.2.1, r.2.2)
    | .Closed => (r.1, r.2.1 + 1, r.2.2)
    | .Timeout => (r.1, r.2.1, r.2.2 + 1)

/-- Modelled from the spec: the `summarize` contract of §4.5 —
`summarize(result) -> (open, closed, timeout)`, a pure reduction
counting occurrences of each `PortOutcome`. No such function exists in
the code; this definition follows the spec's words for comparison. -/
def summarizeSpec (l : List PortState) : Nat × Nat × Nat :=
  (l.countP (· == PortState.Open),
   l.countP (· == PortState.Closed),
   l.countP (· == PortState.Timeout))

example : expand_port_list "1-5" = some [1, 2, 3, 4, 5] := by decide
example : expand_port_list "1,2,3,4,5" = some [1, 2, 3, 4, 5] := by decide
example : expand_port_list "5..9" = none := by decide
example : expand_hosts "" = .error .MissingAddress := rfl
example : expand_hosts "1.2.3.4/33" = .error .BadNetmask := rfl
example : expand_hosts "bad/24" = .error .BadIpAddress := rfl
example : expand_hosts "192.168.1.2/31" =
    .ok { next := 3232235778, last := 3232235779 } := rfl

/-! ## Helper lemmas -/

theorem next_le_last (addr mask : Nat) :
    (expand_hosts_with_netmask addr mask).next ≤
      (expand_hosts_with_netmask addr mask).last := by
  unfold expand_hosts_with_netmask
  split
  · exact le_refl _
  · exact Nat.le_add_right _ _

theorem runIter_ne_none_of_last_max (fuel : Nat) :
    ∀ s : HostIpRange, s.last = 2 ^ 32 - 1 → s.next ≤ s.last →
      (runIter fuel s).2 ≠ none := by
  induction fuel with
  | zero =>
    intro s _ _
    simp [runIter]
  | succ n ih =>
    intro s h1 h2
    simp only [runIter, hostNext, if_pos h2]
    refine ih { next := (s.next + 1) % 2 ^ 32, last := s.last } h1 ?_
    show (s.next + 1) % 2 ^ 32 ≤ s.last
    rw [h1]
    omega

theorem runIter_complete (fuel : Nat) :
    ∀ s : HostIpRange, s.last + 1 < 2 ^ 32 → s.last + 1 - s.next < fuel →
      runIter fuel s = (rangeToList s.next s.last, none) := by
  induction fuel with
  | zero =>
    intro s _ h2
    omega
  | succ n ih =>
    intro s h1 h2
    by_cases hc : s.next ≤ s.last
    · simp only [runIter, hostNext, if_pos hc]
      have hmod : (s.next + 1) % 2 ^ 32 = s.next + 1 := Nat.mod_eq_of_lt (by omega)
      have ih' := ih { next := (s.next + 1) % 2 ^ 32, last := s.last } h1
        (by show s.last + 1 - ((s.next + 1) % 2 ^ 32) < n; rw [hmod]; omega)
      rw [ih']
      unfold rangeToList
      rw [hmod]
      have hlen : s.last + 1 - s.next = (s.last + 1 - (s.next + 1)) + 1 := by omega
      rw [hlen, List.range'_succ]
    · simp only [runIter, hostNext, if_neg hc]
      unfold rangeToList
      have : s.last + 1 - s.next = 0 := by omega
      rw [this]
      rfl

theorem expandTokens_fail :
    ∀ (ts : List (List Char)) (t : List Char), t ∈ ts →
      expand_port_range t = none → expandTokens ts = none := by
  intro ts
  induction ts with
  | nil =>
    intro t h
    cases h
  | cons a l ih =>
    intro t h hr
    rcases List.mem_cons.mp h with rfl | hmem
    · simp [expandTokens, hr]
    · simp only [expandTokens]
      cases ha : expand_port_range a with
      | none => rfl
      | some p =>
        rw [ih t hmem hr]
        rfl

theorem expandTokens_join :
    ∀ (ts : List (List Char)) (rs : List (Nat × Nat)),
      ts.mapM expand_port_range = some rs →
      expandTokens ts = some ((rs.map fun p => rangeToList p.1 p.2).flatten) := by
  intro ts
  induction ts with
  | nil =>
    intro rs h
    simp only [List.mapM_nil, Option.pure_def, Option.some.injEq] at h
    subst h
    rfl
  | cons t l ih =>
    intro rs h
    simp only [List.mapM_cons] at h
    cases ht : expand_port_range t with
    | none =>
      rw [ht] at h
      simp at h
    | some p =>
      rw [ht] at h
      cases hl : l.mapM expand_port_range with
      | none =>
        rw [hl] at h
        simp at h
      | some rs' =>
        rw [hl] at h
        simp only [Option.bind_eq_bind, Option.some_bind, Option.pure_def,
          Option.some.injEq] at h
        subst h
        simp [expandTokens, ht, ih rs' hl]

theorem expand_port_range_sides (t x y : List Char) (a b : Nat)
    (hs : splitOnceList '-' t = some (x, y)) (hx : parseU16 x = some a)
    (hy : parseU16 y = some b) : expand_port_range t = some (a, b) := by
  cases x with
  | nil =>
    exact absurd hx (by simp [parseU16, parseUInt])
  | cons cx x' =>
    cases y with
    | nil =>
      exact absurd hy (by simp [parseU16, parseUInt])
    | cons cy y' =>
      simp only [expand_port_range, hs, hx, hy]

/-! ## Claim theorems -/

/-- Claim C1: "for every valid prefix length p in 0..=32 and every valid base
address b, expand_hosts on b/p succeeds and yields exactly 2^(32-p) addresses,
contiguous and ascending; for p = 32 exactly the single address b." Refuted at
b = 255.255.255.255, p = 32: the parse succeeds with the singleton range, but
the iterator yields the base address and then, because the u32 increment in
`HostIpRange::next` wraps past `u32::MAX`, continues with 0.0.0.1 onward and
never returns `None`. -/
theorem broadcast_slash32_yields_more_than_base :
    expand_hosts "255.255.255.255/32" =
      .ok { next := 4294967295, last := 4294967295 } ∧
    (runIter 3 { next := 4294967295, last := 4294967295 }).1 =
      [4294967295, 0, 1] ∧
    ∀ fuel, (runIter fuel { next := 4294967295, last := 4294967295 }).2 ≠ none :=
  ⟨rfl, by decide,
   fun fuel => runIter_ne_none_of_last_max fuel _ (by decide) (by decide)⟩

/-- Claim C4: "for every HostIpRange returned by expand_hosts, the iterator
yields exactly networkEnd − networkStart + 1 addresses and then None — finite
for every parsed input, including ranges whose last address is
255.255.255.255." Refuted at input 128.0.0.0/1, whose range ends at
255.255.255.255: the `self.next += 1` wraps at `u32::MAX` and the iterator
never returns `None`, for any number of calls. -/
theorem slash1_iterator_never_terminates :
    expand_hosts "128.0.0.0/1" =
      .ok { next := 2147483648, last := 4294967295 } ∧
    ∀ fuel, (runIter fuel { next := 2147483648, last := 4294967295 }).2 ≠ none :=
  ⟨rfl, fun fuel => runIter_ne_none_of_last_max fuel _ (by decide) (by decide)⟩

/-- Claim C5 counterexample: the two `expand_hosts_with_netmask` variants do
not produce the same sequence. At base 0.0.0.0 with mask 31 the `main.rs`
variant yields only [0.0.0.1] while the `args.rs` iterator yields
[0.0.0.0, 0.0.0.1] and terminates. -/
theorem main_and_args_expansion_differ :
    main_expand_hosts_with_netmask 0 31 ≠
      (runIter 3 (expand_hosts_with_netmask 0 31)).1 ∧
    (runIter 3 (expand_hosts_with_netmask 0 31)).2 = none ∧
    main_expand_hosts_with_netmask 0 31 = [1] ∧
    (runIter 3 (expand_hosts_with_netmask 0 31)).1 = [0, 1] := by
  decide

/-- Closed form of the args.rs expansion away from the mask-32 branch. -/
theorem expand_hwn_of_ne (addr mask : Nat) (hne : mask ≠ 32) :
    expand_hosts_with_netmask addr mask =
      { next := addr &&& (2 ^ 32 - 1 - (2 ^ (32 - mask) % 2 ^ 32 + (2 ^ 32 - 1)) % 2 ^ 32),
        last := (addr &&& (2 ^ 32 - 1 - (2 ^ (32 - mask) % 2 ^ 32 + (2 ^ 32 - 1)) % 2 ^ 32)) +
          (2 ^ (32 - mask) % 2 ^ 32 + (2 ^ 32 - 1)) % 2 ^ 32 } := by
  unfold expand_hosts_with_netmask
  rw [if_neg hne]

/-- Closed form of the main.rs expansion away from the mask-32 branch. -/
theorem main_hwn_of_ne (addr mask : Nat) (hne : mask ≠ 32) :
    main_expand_hosts_with_netmask addr mask =
      (rangeToList 1 ((2 ^ (32 - mask) % 2 ^ 32 + (2 ^ 32 - 1)) % 2 ^ 32)).map
        (fun i => (addr &&& (2 ^ 32 - 1 - (2 ^ (32 - mask) % 2 ^ 32 + (2 ^ 32 - 1)) % 2 ^ 32)) + i) := by
  unfold main_expand_hosts_with_netmask
  rw [if_neg hne]

/-- Claim C5 amended: for mask 32 both variants produce exactly the base
address; for mask < 32 the `args.rs` range is the network address followed by
the `main.rs` vector (the historical `main.rs` variant starts its map at
`1..=ignore_mask`, omitting the network address); and wherever the `args.rs`
range does not end at 255.255.255.255 its iterator terminates having produced
exactly that range. -/
theorem main_expansion_drops_network_address (addr mask : Nat)
    (hm : mask ≤ 32) :
    (mask = 32 → main_expand_hosts_with_netmask addr mask = [addr] ∧
      rangeToList (expand_hosts_with_netmask addr mask).next
        (expand_hosts_with_netmask addr mask).last = [addr]) ∧
    (mask < 32 → rangeToList (expand_hosts_with_netmask addr mask).next
        (expand_hosts_with_netmask addr mask).last =
      (expand_hosts_with_netmask addr mask).next ::
        main_expand_hosts_with_netmask addr mask) ∧
    ((expand_hosts_with_netmask addr mask).last < 2 ^ 32 - 1 →
      runIter ((expand_hosts_with_netmask addr mask).last + 2 -
          (expand_hosts_with_netmask addr mask).next)
        (expand_hosts_with_netmask addr mask) =
      (rangeToList (expand_hosts_with_netmask addr mask).next
        (expand_hosts_with_netmask addr mask).last, none)) := by
  refine ⟨?_, ?_, ?_⟩
  · intro h32
    subst h32
    constructor
    · simp [main_expand_hosts_with_netmask]
    · show rangeToList addr addr = [addr]
      unfold rangeToList
      have h : addr + 1 - addr = 1 := by omega
      rw [h]
      exact List.range'_one
  · intro hlt
    have hne : mask ≠ 32 := by omega
    rw [expand_hwn_of_ne addr mask hne, main_hwn_of_ne addr mask hne]
    unfold rangeToList
    generalize (2 ^ (32 - mask) % 2 ^ 32 + (2 ^ 32 - 1)) % 2 ^ 32 = im
    generalize addr &&& (2 ^ 32 - 1 - im) = net
    show List.range' net (net + im + 1 - net) =
      net :: (List.range' 1 (im + 1 - 1)).map (fun i => net + i)
    have e1 : net + im + 1 - net = im + 1 := by omega
    have e2 : im + 1 - 1 = im := by omega
    rw [e1, e2, List.range'_succ]
    congr 1
    rw [List.map_add_range']
  · intro hlast
    have h2 := next_le_last addr mask
    exact runIter_complete _ _ (by omega) (by omega)

/-- Claim C5 witness: the amended relation evaluated at base 0.0.0.0,
mask 31. -/
theorem main_expansion_drops_network_address_witness :
    rangeToList (expand_hosts_with_netmask 0 31).next
        (expand_hosts_with_netmask 0 31).last =
      (expand_hosts_with_netmask 0 31).next ::
        main_expand_hosts_with_netmask 0 31 ∧
    runIter ((expand_hosts_with_netmask 0 31).last + 2 -
        (expand_hosts_with_netmask 0 31).next) (expand_hosts_with_netmask 0 31) =
      (rangeToList (expand_hosts_with_netmask 0 31).next
        (expand_hosts_with_netmask 0 31).last, none) :=
  ⟨(main_expansion_drops_network_address 0 31 (by decide)).2.1 (by decide),
   (main_expansion_drops_network_address 0 31 (by decide)).2.2 (by decide)⟩

/-- Claim C3: a port specification containing a malformed token makes the
whole expansion fail — the bad token is not dropped and no partial sequence is
returned (the Rust `unwrap` panic, modelled as `none`, carries the
`InvalidPortNumber` produced by `expand_port_range`) — and `main`'s pre-flight
setup fails for any host specification, so no scan target exists and no probe
can be spawned. -/
theorem bad_port_token_aborts (s : String) (t : List Char)
    (hmem : t ∈ splitAllList ',' s.toList)
    (hbad : expand_port_range t = none) :
    expand_port_list s = none ∧ ∀ h : String, mainSetup h s = none := by
  have hfail : expand_port_list s = none :=
    expandTokens_fail (splitAllList ',' s.toList) t hmem hbad
  refine ⟨hfail, fun h => ?_⟩
  unfold mainSetup
  rw [hfail]
  cases main_expand_hosts h <;> rfl

/-- Claim C3 witness: the malformed middle token of "1,x,3". -/
theorem bad_port_token_aborts_witness :
    "x".toList ∈ splitAllList ',' "1,x,3".toList ∧
    expand_port_range "x".toList = none ∧
    expand_port_list "1,x,3" = none ∧
    ∀ h : String, mainSetup h "1,x,3" = none :=
  ⟨by decide, by decide,
   (bad_port_token_aborts "1,x,3" "x".toList (by decide) (by decide)).1,
   (bad_port_token_aborts "1,x,3" "x".toList (by decide) (by decide)).2⟩

/-- Claim C6: `expand_port_list` splits on commas and concatenates, in token
order, each token's expansion, preserving duplicates: a dash-free token
expands to the single port it parses to, a token with numeric parts on both
sides of the first dash expands to the inclusive range between them, and the
bare dash token expands to 1..=65535. -/
theorem port_list_token_semantics :
    (∀ (t : List Char) (v : Nat), splitOnceList '-' t = none →
      parseU16 t = some v →
      expand_port_range t = some (v, v) ∧ rangeToList v v = [v]) ∧
    expand_port_range ['-'] = some (1, 65535) ∧
    (∀ (t x y : List Char) (a b : Nat), splitOnceList '-' t = some (x, y) →
      parseU16 x = some a → parseU16 y = some b →
      expand_port_range t = some (a, b)) ∧
    (∀ (s : String) (rs : List (Nat × Nat)),
      (splitAllList ',' s.toList).mapM expand_port_range = some rs →
      expand_port_list s = some ((rs.map fun p => rangeToList p.1 p.2).flatten)) := by
  refine ⟨?_, by decide, ?_, ?_⟩
  · intro t v hs hv
    constructor
    · simp only [expand_port_range, hs, hv]
    · unfold rangeToList
      have h : v + 1 - v = 1 := by omega
      rw [h]
      exact List.range'_one
  · intro t x y a b hs hx hy
    exact expand_port_range_sides t x y a b hs hx hy
  · intro s rs h
    exact expandTokens_join (splitAllList ',' s.toList) rs h

/-- Claim C6 witness: a single port, a two-sided range, and a spec mixing a
range, a single port and a duplicate. -/
theorem port_list_token_semantics_witness :
    expand_port_range "80".toList = some (80, 80) ∧
    expand_port_range "20-23".toList = some (20, 23) ∧
    expand_port_list "1-3,5,1" =
      some (([((1 : Nat), (3 : Nat)), (5, 5), (1, 1)].map
        fun p => rangeToList p.1 p.2).flatten) :=
  ⟨(port_list_token_semantics.1 "80".toList 80 (by decide) (by decide)).1,
   port_list_token_semantics.2.2.1 "20-23".toList "20".toList "23".toList
     20 23 (by decide) (by decide) (by decide),
   port_list_token_semantics.2.2.2 "1-3,5,1" [(1, 3), (5, 5), (1, 1)]
     (by decide)⟩

/-- Claim C7: a reversed numeric range token parses successfully (no
validation that the left bound is at most the right one), denotes the empty
range, and contributes no ports to the output of `expand_port_list`. -/
theorem reversed_port_range_is_empty (t x y : List Char) (a b : Nat)
    (hs : splitOnceList '-' t = some (x, y)) (hx : parseU16 x = some a)
    (hy : parseU16 y = some b) (hrev : b < a) :
    expand_port_range t = some (a, b) ∧ rangeToList a b = [] ∧
    ∀ rest, expandTokens (t :: rest) = expandTokens rest := by
  have hr : expand_port_range t = some (a, b) :=
    expand_port_range_sides t x y a b hs hx hy
  have hempty : rangeToList a b = [] := by
    unfold rangeToList
    have h : b + 1 - a = 0 := by omega
    rw [h]
    rfl
  refine ⟨hr, hempty, fun rest => ?_⟩
  simp only [expandTokens, hr, hempty, List.nil_append]
  cases expandTokens rest <;> rfl

/-- Claim C7 witness: the reversed token "9-5" ahead of a normal token. -/
theorem reversed_port_range_is_empty_witness :
    expand_port_range "9-5".toList = some (9, 5) ∧ rangeToList 9 5 = [] ∧
    expandTokens ["9-5".toList, "80".toList] = expandTokens ["80".toList] :=
  ⟨(reversed_port_range_is_empty "9-5".toList "9".toList "5".toList 9 5
      (by decide) (by decide) (by decide) (by decide)).1,
   (reversed_port_range_is_empty "9-5".toList "9".toList "5".toList 9 5
      (by decide) (by decide) (by decide) (by decide)).2.1,
   (reversed_port_range_is_empty "9-5".toList "9".toList "5".toList 9 5
      (by decide) (by decide) (by decide) (by decide)).2.2 ["80".toList]⟩

/-- Claim C9: `expand_hosts` fails with `MissingAddress` exactly when the
input is empty; on a nonempty input it fails with `BadIpAddress` when the
address portion (before the first slash, or the whole input without one) does
not parse as a dotted-quad IPv4 address; with a valid address it fails with
`BadNetmask` when the portion after the slash is not an integer in 0..=32;
and absence of a slash means prefix length 32. -/
theorem expand_hosts_error_classification (s : String) :
    (expand_hosts s = .error .MissingAddress ↔ s = "") ∧
    (s ≠ "" → ipv4FromChars (ipAndMaskParts s.toList).1 = none →
      expand_hosts s = .error .BadIpAddress) ∧
    (s ≠ "" → (∃ a, ipv4FromChars (ipAndMaskParts s.toList).1 = some a) →
      parseMask (ipAndMaskParts s.toList).2 = none →
      expand_hosts s = .error .BadNetmask) ∧
    (splitOnceList '/' s.toList = none →
      ∀ a, ipv4FromChars s.toList = some a →
      expand_hosts s = .ok (expand_hosts_with_netmask a 32)) := by
  have hlist : s = "" ↔ s.toList = [] :=
    ⟨fun h => by subst h; rfl, fun h => String.ext h⟩
  refine ⟨?_, ?_, ?_, ?_⟩
  · constructor
    · intro h
      by_cases hc : s.toList = []
      · exact hlist.mpr hc
      · exfalso
        unfold expand_hosts address_and_netmask_from_chars at h
        rw [if_neg hc] at h
        cases hip : ipv4FromChars (ipAndMaskParts s.toList).1 with
        | none =>
          rw [hip] at h
          simp at h
        | some a =>
          rw [hip] at h
          cases hmk : parseMask (ipAndMaskParts s.toList).2 with
          | none =>
            rw [hmk] at h
            simp at h
          | some m =>
            rw [hmk] at h
            simp at h
    · intro h
      subst h
      rfl
  · intro hne hip
    have hc : s.toList ≠ [] := fun h => hne (hlist.mpr h)
    unfold expand_hosts address_and_netmask_from_chars
    rw [if_neg hc, hip]
  · intro hne ha hmk
    obtain ⟨a, hip⟩ := ha
    have hc : s.toList ≠ [] := fun h => hne (hlist.mpr h)
    unfold expand_hosts address_and_netmask_from_chars
    rw [if_neg hc, hip, hmk]
  · intro hsl a hip
    have hc : s.toList ≠ [] := by
      intro h
      rw [h] at hip
      simp [ipv4FromChars, splitAllList] at hip
    have hparts : ipAndMaskParts s.toList = (s.toList, ['3', '2']) := by
      unfold ipAndMaskParts
      rw [hsl]
    unfold expand_hosts address_and_netmask_from_chars
    rw [if_neg hc]
    simp only [hparts]
    rw [hip]
    have hmask : parseMask ['3', '2'] = some 32 := rfl
    rw [hmask]

/-- Claim C9 witness: the spec's three example inputs. -/
theorem expand_hosts_error_classification_witness :
    expand_hosts "" = .error .MissingAddress ∧
    expand_hosts "1.2.3.4/33" = .error .BadNetmask ∧
    expand_hosts "bad/24" = .error .BadIpAddress ∧
    expand_hosts "9.9.9.9" = .ok (expand_hosts_with_netmask 151587081 32) :=
  ⟨(expand_hosts_error_classification "").1.mpr rfl,
   (expand_hosts_error_classification "1.2.3.4/33").2.2.1 (by decide)
     ⟨16909060, by decide⟩ (by decide),
   (expand_hosts_error_classification "bad/24").2.1 (by decide) (by decide),
   (expand_hosts_error_classification "9.9.9.9").2.2.2 (by decide) 151587081
     (by decide)⟩

/-- Claim C10 counterexample: the aggregation loop in `main` keeps no open
count at all — its two counters stay (0, 0) on an input whose spec-side
summary triple is (1, 0, 0). -/
theorem aggregation_lacks_open_count :
    summarizeSpec [PortState.Open] = (1, 0, 0) ∧
    (mainAggregate [("192.168.1.1:80", PortState.Open)]).2 = (0, 0) :=
  ⟨rfl, rfl⟩

/-- Claim C10 amended: the aggregation loop in `main` is a pure reduction
over the (address:port, outcome) pairs of the whole scan — not grouped per
host — producing exactly the list of addresses with `Open` outcome (each of
which it prints), the exact count of `Closed` outcomes, and the exact count
of `Timeout` outcomes; no open counter is kept. -/
theorem aggregation_counts_closed_timeout_exactly
    (l : List (String × PortState)) :
    mainAggregate l =
      (l.filterMap (fun p => if p.2 = PortState.Open then some p.1 else none),
       l.countP (fun p => p.2 == PortState.Closed),
       l.countP (fun p => p.2 == PortState.Timeout)) := by
  induction l with
  | nil => rfl
  | cons hd tl ih =>
    obtain ⟨sa, st⟩ := hd
    cases st <;>
      simp [mainAggregate, ih, List.countP_cons, List.filterMap_cons]

/-- Claim C10 witness: the exact-count reduction on a concrete outcome
list. -/
theorem aggregation_counts_closed_timeout_exactly_witness :
    mainAggregate [("10.0.0.1:22", PortState.Open),
        ("10.0.0.1:23", PortState.Closed), ("10.0.0.2:22", PortState.Timeout),
        ("10.0.0.2:23", PortState.Closed)] =
      ([("10.0.0.1:22", PortState.Open), ("10.0.0.1:23", PortState.Closed),
        ("10.0.0.2:22", PortState.Timeout),
        ("10.0.0.2:23", PortState.Closed)].filterMap
          (fun p => if p.2 = PortState.Open then some p.1 else none),
       [("10.0.0.1:22", PortState.Open), ("10.0.0.1:23", PortState.Closed),
        ("10.0.0.2:22", PortState.Timeout),
        ("10.0.0.2:23", PortState.Closed)].countP
          (fun p => p.2 == PortState.Closed),
       [("10.0.0.1:22", PortState.Open), ("10.0.0.1:23", PortState.Closed),
        ("10.0.0.2:22", PortState.Timeout),
        ("10.0.0.2:23", PortState.Closed)].countP
          (fun p => p.2 == PortState.Timeout)) :=
  aggregation_counts_closed_timeout_exactly
    [("10.0.0.1:22", PortState.Open), ("10.0.0.1:23", PortState.Closed),
     ("10.0.0.2:22", PortState.Timeout), ("10.0.0.2:23", PortState.Closed)]
